import Mathlib

/-!
Shallow embedding of the changelog synchronization engine of this repository
(`.github/scripts/update_changelog.py` and `.github/scripts/populate_changelog.py`).

Documents and all other text are modelled as `List Char` (`Str`).  Python regular
expressions are translated into executable scanners that follow the concrete
patterns of the source character by character (the patterns involved are all
deterministic once backtracking is unfolded, and each translation is commented
with the pattern it implements).  File state is `Option Str` (`none` = the
changelog file does not exist).  Network and subprocess results are passed as
explicit `Except`/parameter inputs, mirroring the `try/except` structure of the
source.
-/

namespace Changelog

abbrev Str := List Char

/-- Python whitespace (`\s`, `str.strip()` default) restricted to ASCII. -/
def isPyWs (c : Char) : Bool :=
  c = ' ' || c = '\t' || c = '\n' || c = '\r' || c = '\x0b' || c = '\x0c'

/-- `str.strip()`: drop whitespace from both ends. -/
def pyStripChars (s : Str) : Str :=
  ((s.dropWhile isPyWs).reverse.dropWhile isPyWs).reverse

/-- Index of the first occurrence of `pat` in `s` (Python `str.find` /
leftmost regex match of a literal), `none` if absent. -/
def findSub (pat : Str) : Str → Option Nat
  | [] => if pat.isPrefixOf [] then some 0 else none
  | c :: rest =>
    if pat.isPrefixOf (c :: rest) then some 0
    else (findSub pat rest).map (· + 1)

/-- Python `pat in s`. -/
def containsSub (pat s : Str) : Bool := (findSub pat s).isSome

/-- `str.split("\n")` (single-character separator, empties kept). -/
def splitNl : Str → List Str
  | [] => [[]]
  | '\n' :: rest => [] :: splitNl rest
  | c :: rest =>
    match splitNl rest with
    | l :: ls => (c :: l) :: ls
    | [] => [[c]]

/-- Decimal digits of a natural number (`str(n)` / `f"{n}"`). -/
def natDigits (n : Nat) : Str := (toString n).toList

/-- Numeric value of a run of decimal digits (`int` on a digit string). -/
def natOfDigits (ds : Str) : Nat :=
  ds.foldl (fun a c => a * 10 + (c.toNat - 48)) 0

/-- `re.findall(r"\(#(\d+)\)", s)` mapped through `int`: every occurrence of a
literal `(` `#`, a maximal nonempty digit run, and a closing `)`.  The scanner
advances one character on a failed attempt and past the `)` on a success,
exactly as the regex engine does; the fuel argument is the remaining length. -/
def extractIdsF : Nat → Str → List Nat
  | 0, _ => []
  | _ + 1, [] => []
  | n + 1, '(' :: '#' :: rest =>
    let ds := rest.takeWhile Char.isDigit
    if ds.isEmpty then extractIdsF n ('#' :: rest)
    else
      match rest.drop ds.length with
      | ')' :: rest2 => natOfDigits ds :: extractIdsF n rest2
      | _ => extractIdsF n ('#' :: rest)
  | n + 1, _ :: rest => extractIdsF n rest

def extractIds (s : Str) : List Nat := extractIdsF s.length s

/-- The managed marker, the literal regex `(## \[Unreleased\])`. -/
def unreleasedMarker : Str := "## [Unreleased]".toList

/-- The next-version boundary, the literal regex `\n## \[`. -/
def nextSectionPat : Str := "\n## [".toList

/--
`parse_changelog()` (update_changelog.py:268-301).  The file is `none` when
`CHANGELOG_PATH` does not exist.  Returns `(before, pr_numbers, after)`:
the text before the first `## [Unreleased]`, the ids matched by
`re.findall(r"\(#(\d+)\)", unreleased_content)` (the Python code wraps them in a
`set` of digit strings; every consumer immediately maps them through `int` and
tests membership, so a `List Nat` is observationally the same), and the text
from the next `\n## [` boundary on.
-/
def parse_changelog (file : Option Str) : Str × List Nat × Str :=
  match file with
  | none => ([], [], [])
  | some content =>
    match findSub unreleasedMarker content with
    | none => (content, [], [])
    | some i =>
      let before := content.take i
      let rest := content.drop (i + unreleasedMarker.length)
      match findSub nextSectionPat rest with
      | some k => (before, extractIds (rest.take k), rest.drop k)
      | none => (before, extractIds rest, [])

/-- The unreleased-region text computed (but not returned) inside
`parse_changelog` (update_changelog.py:290-296). -/
def unreleasedContent (content : Str) : Str :=
  match findSub unreleasedMarker content with
  | none => []
  | some i =>
    let rest := content.drop (i + unreleasedMarker.length)
    match findSub nextSectionPat rest with
    | some k => rest.take k
    | none => rest

/-- `CATEGORY_MAPPING` (update_changelog.py:83-100), in its literal insertion
order, which is the dict's key iteration order. -/
def CATEGORY_MAPPING : List (Str × Str) :=
  [("feature".toList, "Added".toList),
   ("enhancement".toList, "Added".toList),
   ("added".toList, "Added".toList),
   ("add".toList, "Added".toList),
   ("new".toList, "Added".toList),
   ("bug".toList, "Fixed".toList),
   ("bugfix".toList, "Fixed".toList),
   ("fix".toList, "Fixed".toList),
   ("fixed".toList, "Fixed".toList),
   ("breaking".toList, "Changed".toList),
   ("breaking-change".toList, "Changed".toList),
   ("changed".toList, "Changed".toList),
   ("change".toList, "Changed".toList),
   ("deprecated".toList, "Deprecated".toList),
   ("removed".toList, "Removed".toList),
   ("security".toList, "Security".toList)]

/-- Association-list lookup (Python dict indexing / `in` test for
`CATEGORY_MAPPING` and `entries_by_category`). -/
def alookup {α : Type} : List (Str × α) → Str → Option α
  | [], _ => none
  | (k, v) :: rest, key => if k = key then some v else alookup rest key

/-- ASCII lowercasing of a string (`str.lower()`; the source only ever feeds it
ASCII label/keyword data). -/
def lowerStr (s : Str) : Str := s.map Char.toLower

/--
`categorize_change(pr_title, pr_body, labels)` (update_changelog.py:124-138):
first label (in label-list order) that is a `CATEGORY_MAPPING` key wins;
otherwise the first mapping key (in the table's insertion order) occurring as a
substring of `f"{pr_title} {pr_body}".lower()` wins; otherwise `"Changed"`.
-/
def categorize_change (pr_title pr_body : Str) (labels : List Str) : Str :=
  match labels.findSome? (fun l => alookup CATEGORY_MAPPING l) with
  | some cat => cat
  | none =>
    let combined := lowerStr (pr_title ++ [' '] ++ pr_body)
    match CATEGORY_MAPPING.findSome?
        (fun kv => if containsSub kv.1 combined then some kv.2 else none) with
    | some cat => cat
    | none => "Changed".toList

/-- The classifier exactly as claim C5 words it: the *table's* key iteration
order decides the label winner (the code instead iterates over the record's
label list).  Kept only to compare against `categorize_change`. -/
def categorize_change_claimed (pr_title pr_body : Str) (labels : List Str) : Str :=
  match CATEGORY_MAPPING.findSome?
      (fun kv => if labels.contains kv.1 then some kv.2 else none) with
  | some cat => cat
  | none =>
    let combined := lowerStr (pr_title ++ [' '] ++ pr_body)
    match CATEGORY_MAPPING.findSome?
        (fun kv => if containsSub kv.1 combined then some kv.2 else none) with
    | some cat => cat
    | none => "Changed".toList

/-- Characters matched by `[:\s]` (the run after the word "changelog"). -/
def isColonWs (c : Char) : Bool := c = ':' || isPyWs c

/-- Case-insensitive literal prefix test (`re.IGNORECASE` on ASCII). -/
def ciPrefix (pat s : Str) : Bool := (s.take pat.length).map Char.toLower = pat

/-- The part of `run` after its last `'\n'`, or `none` when `run` has no
newline.  Implements the backtracking of greedy `[:\s]*` followed by a literal
`\n`: the newline consumed is the last one of the maximal `[:\s]` run. -/
def afterLastNl (run : Str) : Option Str :=
  if run.contains '\n' then some ((run.reverse.takeWhile (· ≠ '\n')).reverse)
  else none

/-- The lazy group `(.*?)` of the changelog-excerpt pattern, stopped by the
consuming alternative `(?:\n#+\s*|$)`: the group runs to the first `"\n#"`, or
to the end of text (`$` also matches just before one final newline). -/
def excerptGroup : Str → Str
  | [] => []
  | ['\n'] => []
  | '\n' :: '#' :: _ => []
  | c :: rest => c :: excerptGroup rest

/-- One attempt, anchored at the start of `s`, of the pattern
`#+\s*changelog[:\s]*\n(.*?)(?:\n#+\s*|$)` with `IGNORECASE | DOTALL`
(update_changelog.py:153-157): a maximal `#` run, a maximal whitespace run,
the literal word `changelog`, a maximal `[:\s]` run that must contain a
newline (the group starts after its last newline), then the lazy group. -/
def excerptAt (s : Str) : Option Str :=
  match s with
  | '#' :: _ =>
    let s1 := s.dropWhile (· = '#')
    let s2 := s1.dropWhile isPyWs
    if ciPrefix "changelog".toList s2 then
      let s3 := s2.drop 9
      let run := s3.takeWhile isColonWs
      match afterLastNl run with
      | none => none
      | some tailRun => some (excerptGroup (tailRun ++ s3.drop run.length))
    else none
  | _ => none

/-- Leftmost match of the changelog-excerpt pattern (`re.search`). -/
def searchChangelogExcerpt : Str → Option Str
  | [] => none
  | c :: rest =>
    match excerptAt (c :: rest) with
    | some g => some g
    | none => searchChangelogExcerpt rest

/-- The conventional-commit keywords of the prefix-stripping regex
`^(feat|fix|docs|style|refactor|perf|test|chore):\s*`, in alternation order. -/
def convKeywords : List Str :=
  ["feat".toList, "fix".toList, "docs".toList, "style".toList,
   "refactor".toList, "perf".toList, "test".toList, "chore".toList]

/-- One alternative of the prefix regex: case-insensitive keyword, a colon,
then a greedy whitespace run, all removed. -/
def convKeywordDrop (kw t : Str) : Option Str :=
  if ciPrefix kw t then
    match t.drop kw.length with
    | ':' :: rest => some (rest.dropWhile isPyWs)
    | _ => none
  else none

/-- `re.sub(r"^(feat|fix|docs|style|refactor|perf|test|chore):\s*", "", title,
flags=re.IGNORECASE)` (update_changelog.py:166-171); anchored, so at most one
removal, first matching alternative wins. -/
def dropConvKeyword (t : Str) : Str :=
  match convKeywords.findSome? (fun kw => convKeywordDrop kw t) with
  | some rest => rest
  | none => t

/-- The lazy `.*?\*\*` search inside the bold-remnant pattern: first `**` with
no newline before it; returns the text after it. -/
def boldEnd : Str → Option Str
  | [] => none
  | '*' :: '*' :: rest => some rest
  | '\n' :: _ => none
  | _ :: rest => boldEnd rest

/-- `re.sub(r"^\*\*.*?\*\*\s*", "", title)` (update_changelog.py:173):
a leading `**...**` pair (no newline inside) plus trailing whitespace removed. -/
def dropBoldRemnant (t : Str) : Str :=
  match t with
  | '*' :: '*' :: rest =>
    match boldEnd rest with
    | some rest2 => rest2.dropWhile isPyWs
    | none => t
  | _ => t

/-- The ` ([#<n>](<url>))` reference-link suffix appended to entries. -/
def refSuffix (n : Nat) (url : Str) : Str :=
  " ([#".toList ++ natDigits n ++ "](".toList ++ url ++ "))".toList

/-- The cleaned title used when no excerpt applies: strip, drop the
conventional-commit keyword, drop the leading bold remnant, strip again
(update_changelog.py:164-174). -/
def cleanedTitle (t : Str) : Str :=
  pyStripChars (dropBoldRemnant (dropConvKeyword (pyStripChars t)))

/--
`extract_changelog_entry(pr_title, pr_body, pr_number, pr_url)`
(update_changelog.py:141-179): an explicit changelog-excerpt section of the
body (when nonempty after `strip`) wins; otherwise the cleaned title with the
link suffix; otherwise the literal `PR #<n> (<url>)` line.
-/
def extract_changelog_entry (pr_title pr_body : Str) (pr_number : Nat)
    (pr_url : Str) : Str :=
  let excerpt : Option Str :=
    if pr_body.isEmpty then none
    else
      match searchChangelogExcerpt pr_body with
      | some g => let c := pyStripChars g; if c.isEmpty then none else some c
      | none => none
  match excerpt with
  | some c => c ++ refSuffix pr_number pr_url
  | none =>
    let t := cleanedTitle pr_title
    if t.isEmpty then
      "PR #".toList ++ natDigits pr_number ++ " (".toList ++ pr_url ++ ")".toList
    else t ++ refSuffix pr_number pr_url

/-- `format_changelog_section(category, entries)` (update_changelog.py:304-312). -/
def format_changelog_section (category : Str) (entries : List Str) : Str :=
  if entries.isEmpty then []
  else
    "\n### ".toList ++ category ++ ['\n'] ++
      (entries.map (fun e => "- ".toList ++ e ++ ['\n'])).flatten

/-- `category_order` (update_changelog.py:320 and 380). -/
def category_order : List Str :=
  ["Added".toList, "Changed".toList, "Deprecated".toList,
   "Removed".toList, "Fixed".toList, "Security".toList]

/-- `entries_by_category[cat].append(entry)`, creating the key (at the end of
the dict's insertion order) when absent (update_changelog.py:332-334). -/
def addEntryToDict (d : List (Str × List Str)) (cat : Str) (e : Str) :
    List (Str × List Str) :=
  match d with
  | [] => [(cat, [e])]
  | (k, es) :: rest =>
    if k = cat then (k, es ++ [e]) :: rest
    else (k, es) :: addEntryToDict rest cat e

/-- `entries_by_category[cat] = v`, replacing the binding in place or creating
it at the end (Python dict assignment). -/
def setDictKey (d : List (Str × List Str)) (cat : Str) (v : List Str) :
    List (Str × List Str) :=
  match d with
  | [] => [(cat, v)]
  | (k, es) :: rest =>
    if k = cat then (k, v) :: rest
    else (k, es) :: setDictKey rest cat v

/-- The `"## [Unreleased]\n"` line that starts every rebuilt region. -/
def unreleasedHeaderLine : Str := "## [Unreleased]\n".toList

/-- The shared rebuild loop of update_changelog.py:337-341 and 400-405:
start from the header line and, for each category in enumeration order that is
a dict key, append its formatted section. -/
def renderUnreleased (d : List (Str × List Str)) : Str :=
  category_order.foldl
    (fun content cat =>
      match alookup d cat with
      | some es => content ++ format_changelog_section cat es
      | none => content)
    unreleasedHeaderLine

/-- A merged-change record as the scripts consume it
(`{number, title, body, html_url, labels}`; labels already lowercased). -/
structure PullReq where
  number : Nat
  title : Str
  body : Str
  htmlUrl : Str
  labels : List Str
  deriving DecidableEq

/-- `build_changelog_content(prs)` (update_changelog.py:315-342). -/
def build_changelog_content (prs : List PullReq) : Str :=
  let d := prs.foldl
    (fun d pr =>
      addEntryToDict d (categorize_change pr.title pr.body pr.labels)
        (extract_changelog_entry pr.title pr.body pr.number pr.htmlUrl))
    []
  renderUnreleased d

/-- `before.split("## [Unreleased]")[0]` (update_changelog.py:369-373). -/
def pySplitHead (sep s : Str) : Str :=
  match findSub sep s with
  | none => s
  | some i => s.take i

/-- `before.split("## [Unreleased]")[1]` (update_changelog.py:366-368): the
text between the first and second occurrence of the separator (or after the
first when it occurs once); only ever evaluated under a `sep in s` guard. -/
def pySplitSecond (sep s : Str) : Str :=
  match findSub sep s with
  | none => []
  | some i =>
    let rest := s.drop (i + sep.length)
    match findSub sep rest with
    | none => rest
    | some j => rest.take j

/-- The greedy line run `((?:- .*\n)*)` after a `### <cat>` heading
(update_changelog.py:384): maximal sequence of complete lines that start with
`"- "` and end with a newline. -/
def dashLineRunF : Nat → Str → Str
  | 0, _ => []
  | n + 1, s =>
    if "- ".toList.isPrefixOf s then
      let body := (s.drop 2).takeWhile (· ≠ '\n')
      match (s.drop 2).drop body.length with
      | '\n' :: rest => "- ".toList ++ body ++ ['\n'] ++ dashLineRunF n rest
      | _ => []
    else []

def dashLineRun (s : Str) : Str := dashLineRunF s.length s

/-- `re.search(rf"### {cat}\n((?:- .*\n)*)", unreleased_content)`
(update_changelog.py:383-385): group 1 of the leftmost match. -/
def findCategoryBlock (cat u : Str) : Option Str :=
  match findSub ("### ".toList ++ cat ++ ['\n']) u with
  | none => none
  | some i => some (dashLineRun (u.drop (i + 4 + cat.length + 1)))

/-- The comprehension of update_changelog.py:387-392: split the group on
newlines, keep stripped lines starting with `-`, drop the two-character
`"- "` head of each. -/
def entriesOfBlock (g : Str) : List Str :=
  (((splitNl g).map pyStripChars).filter
    (fun l => ['-'].isPrefixOf l)).map (List.drop 2)

/--
`update_changelog_single_pr(pr_number, pr_title, pr_body, pr_author, pr_url)`
(update_changelog.py:345-412).  The labels the source fetches over the network
with `get_pr_labels` are passed as a parameter; the file state is passed in and
the written state returned (`Bool` is the function's return value, which the
caller uses as the updated/no-op signal).
-/
def update_changelog_single_pr (pr_number : Nat) (pr_title pr_body : Str)
    (_pr_author : Str) (pr_url : Str) (labels : List Str) (file : Option Str) :
    Bool × Option Str :=
  let parsed := parse_changelog file
  let before := parsed.1
  let existing_prs := parsed.2.1
  let after := parsed.2.2
  if pr_number ∈ existing_prs then (false, file)
  else
    let category := categorize_change pr_title pr_body labels
    let entry := extract_changelog_entry pr_title pr_body pr_number pr_url
    let unreleased_content :=
      if !before.isEmpty && !after.isEmpty then
        if containsSub unreleasedMarker before
        then pySplitSecond unreleasedMarker before else []
      else []
    let full_before :=
      if !before.isEmpty && !after.isEmpty then
        if containsSub unreleasedMarker before
        then pySplitHead unreleasedMarker before else before
      else before
    let d0 := category_order.foldl
      (fun d cat =>
        match findCategoryBlock cat unreleased_content with
        | some g => setDictKey d cat (entriesOfBlock g)
        | none => d)
      []
    let d1 :=
      match alookup d0 category with
      | none => d0 ++ [(category, [entry])]
      | some es => setDictKey d0 category (entry :: es)
    (true, some (full_before ++ renderUnreleased d1 ++ after))

/-- The end (exclusive) of the regex region match
`## \[Unreleased\].*?(?=\n## \[|\Z)` (DOTALL) that starts at `i`: the lazy
body stops at the first `\n## [` after the marker, or at the end of text. -/
def regionEnd (s : Str) (i : Nat) : Nat :=
  i + unreleasedMarker.length +
    ((findSub nextSectionPat (s.drop (i + unreleasedMarker.length))).getD
      (s.length - (i + unreleasedMarker.length)))

/-- `re.sub(unreleased_pattern, new_unreleased, content, flags=re.DOTALL)`
(update_changelog.py:444-447): replace every region match, resuming the scan
at the end of each match.  The fuel argument is the remaining length; every
recursion drops at least the 15-character marker. -/
def subUnreleasedF (repl : Str) : Nat → Str → Str
  | 0, s => s
  | n + 1, s =>
    match findSub unreleasedMarker s with
    | none => s
    | some i => s.take i ++ repl ++ subUnreleasedF repl n (s.drop (regionEnd s i))

def subUnreleased (repl s : Str) : Str := subUnreleasedF repl s.length s

/--
`build_full_changelog_from_history(limit)` (update_changelog.py:415-464), with
the fetched records passed as a parameter (the source obtains them through
`get_merged_prs_since`) and the file state threaded through.  When `prs` is
empty the function returns without writing.
-/
def build_full_changelog_from_history (prs : List PullReq) (file : Option Str) :
    Option Str :=
  if prs.isEmpty then file
  else
    let existing_prs := (parse_changelog file).2.1
    let new_prs := prs.filter (fun pr => !existing_prs.contains pr.number)
    let new_unreleased := build_changelog_content new_prs
    match file with
    | some content =>
      if containsSub unreleasedMarker content then
        some (subUnreleased new_unreleased content)
      else
        match findSub "# Changelog".toList content with
        | some cs =>
          some (content.take cs ++ new_unreleased ++ "\n\n".toList ++
            content.drop cs)
        | none => some (new_unreleased ++ "\n\n".toList ++ content)
    | none => some new_unreleased

/-- Characters matched by `[\w-]` (ASCII word characters and the dash). -/
def isWordDash (c : Char) : Bool := c.isAlphanum || c = '_' || c = '-'

/-- One attempt, anchored at the start of `s`, of
`#\d+\s+from\s+[\w-]+/([\w-]+)\s+(.*)` (update_changelog.py:241): returns
group 2, the merge-commit subject. -/
def mergeTitleAt (s : Str) : Option Str :=
  match s with
  | '#' :: r =>
    let ds := r.takeWhile Char.isDigit
    if ds.isEmpty then none
    else
      let r1 := r.drop ds.length
      let ws1 := r1.takeWhile isPyWs
      if ws1.isEmpty then none
      else
        let r2 := r1.drop ws1.length
        if "from".toList.isPrefixOf r2 then
          let r3 := r2.drop 4
          let ws2 := r3.takeWhile isPyWs
          if ws2.isEmpty then none
          else
            let r4 := r3.drop ws2.length
            let w1 := r4.takeWhile isWordDash
            if w1.isEmpty then none
            else
              match r4.drop w1.length with
              | '/' :: r6 =>
                let w2 := r6.takeWhile isWordDash
                if w2.isEmpty then none
                else
                  let r7 := r6.drop w2.length
                  let ws3 := r7.takeWhile isPyWs
                  if ws3.isEmpty then none
                  else some ((r7.drop ws3.length).takeWhile (· ≠ '\n'))
              | _ => none
        else none
  | _ => none

/-- Leftmost match of the merge-commit title pattern (`re.search`). -/
def searchMergeTitle : Str → Option Str
  | [] => none
  | c :: rest =>
    match mergeTitleAt (c :: rest) with
    | some t => some t
    | none => searchMergeTitle rest

/-- One attempt, anchored at the start of `s`, of `#(\d+)`
(update_changelog.py:237): a `#` followed by a maximal nonempty digit run. -/
def hashNumAt (s : Str) : Option Nat :=
  match s with
  | '#' :: r =>
    let ds := r.takeWhile Char.isDigit
    if ds.isEmpty then none else some (natOfDigits ds)
  | _ => none

/-- Leftmost match of `#(\d+)` (`re.search`). -/
def searchHashNum : Str → Option Nat
  | [] => none
  | c :: rest =>
    match hashNumAt (c :: rest) with
    | some n => some n
    | none => searchHashNum rest

/-- The record synthesized from one `git log` line
(update_changelog.py:233-260); `none` when the line is empty or carries no
`#<digits>` reference. -/
def prOfGitLine (owner repo line : Str) : Option PullReq :=
  if line.isEmpty then none
  else
    match searchHashNum line with
    | none => none
    | some num =>
      let title :=
        match searchMergeTitle line with
        | some t => pyStripChars t
        | none => line
      some
        { number := num, title := title, body := [],
          htmlUrl := "https://github.com/".toList ++ owner ++ ['/'] ++ repo ++
            "/pull/".toList ++ natDigits num,
          labels := [] }

/--
`get_merged_prs_from_git(limit)` (update_changelog.py:217-265): the subprocess
result is an `Except` (`error` = command unavailable / timeout, i.e. any
exception before the loop); any such failure yields `[]`.  Repository
coordinates are passed as parameters (the source resolves them through
environment or git config).
-/
def get_merged_prs_from_git (gitOut : Except Str Str) (owner repo : Str)
    (limit : Nat) : List PullReq :=
  match gitOut with
  | .error _ => []
  | .ok out =>
    (((splitNl (pyStripChars out)).filterMap (prOfGitLine owner repo)).take limit)

/--
`get_merged_prs_since(since_date, limit)` (update_changelog.py:182-214): the
primary API call is an `Except` (`error` = transport failure, non-2xx status
raised by `raise_for_status`, or a malformed payload raising during decoding);
any failure falls back to the git-history path.
-/
def get_merged_prs_since (primary : Except Str (List PullReq))
    (gitOut : Except Str Str) (owner repo : Str) (limit : Nat) : List PullReq :=
  match primary with
  | .ok items => items
  | .error _ => get_merged_prs_from_git gitOut owner repo limit

/-- `y` has no newline (the `.` of the URL regexes never matches `\n`). -/
def noNl (s : Str) : Bool := !s.contains '\n'

/-- `s = y ++ suffix` for a literal `suffix`, returning `y`. -/
def dropSuffixQ (suffix s : Str) : Option Str :=
  if suffix.reverse.isPrefixOf s.reverse then some (s.take (s.length - suffix.length))
  else none

/-- The SSH alternative of the validation regex
`^git@github\.com:[^/]+/.+?\.git$` (update_changelog.py:51-54): the `$` of
Python also matches just before one final newline. -/
def validSshRemote (url : Str) : Bool :=
  if "git@github.com:".toList.isPrefixOf url then
    let r := url.drop 15
    let x := r.takeWhile (· ≠ '/')
    if x.isEmpty then false
    else
      match r.drop x.length with
      | '/' :: w =>
        (match dropSuffixQ ".git".toList w with
         | some y => !y.isEmpty && noNl y
         | none => false) ||
        (match dropSuffixQ ".git\n".toList w with
         | some y => !y.isEmpty && noNl y
         | none => false)
      | _ => false
  else false

/-- One `(optionalPart, endPart)` tail alternative of the HTTPS validation
shape: `w = y ++ optionalPart ++ endPart` with `y` nonempty and
newline-free. -/
def httpsTailCase (opt e w : Str) : Bool :=
  match dropSuffixQ (opt ++ e) w with
  | some y => !y.isEmpty && noNl y
  | none => false

/-- The HTTPS alternative of the validation regex
`^https://github\.com/[^/]+/.+?(/|\.git)?$` (update_changelog.py:51-54). -/
def validHttpsRemote (url : Str) : Bool :=
  if "https://github.com/".toList.isPrefixOf url then
    let r := url.drop 19
    let x := r.takeWhile (· ≠ '/')
    if x.isEmpty then false
    else
      match r.drop x.length with
      | '/' :: w =>
        httpsTailCase [] [] w || httpsTailCase [] ['\n'] w ||
        httpsTailCase "/".toList [] w || httpsTailCase "/".toList ['\n'] w ||
        httpsTailCase ".git".toList [] w || httpsTailCase ".git".toList ['\n'] w
      | _ => false
  else false

/-- The strict allow-list pattern of update_changelog.py:51-54. -/
def validRemote (url : Str) : Bool := validSshRemote url || validHttpsRemote url

/-- The lazy `(.+?)` group of the extraction regexes: shortest nonempty
newline-free prefix whose remainder is accepted by `endOk` (the consumed
optional tail plus the `$` anchor). -/
def lazyRepoName (endOk : Str → Bool) : Str → Option Str
  | [] => none
  | c :: rest =>
    if c = '\n' then none
    else if endOk rest then some [c]
    else (lazyRepoName endOk rest).map (c :: ·)

/-- Remainders accepted after the repo-name group of
`git@github\.com:([^/]+)/(.+?)(?:\.git)?$`. -/
def sshEndOk (rest : Str) : Bool :=
  rest = [] || rest = ['\n'] || rest = ".git".toList || rest = ".git\n".toList

/-- Remainders accepted after the repo-name group of
`https://github\.com/([^/]+)/(.+?)(?:\.git)?/?$`. -/
def httpsEndOk (rest : Str) : Bool :=
  rest = [] || rest = ['\n'] || rest = "/".toList || rest = "/\n".toList ||
  rest = ".git".toList || rest = ".git\n".toList ||
  rest = ".git/".toList || rest = ".git/\n".toList

/-- `re.match(r"git@github\.com:([^/]+)/(.+?)(?:\.git)?$", remote_url)`
(update_changelog.py:57-59): the two groups. -/
def sshExtract (url : Str) : Option (Str × Str) :=
  if "git@github.com:".toList.isPrefixOf url then
    let r := url.drop 15
    let x := r.takeWhile (· ≠ '/')
    if x.isEmpty then none
    else
      match r.drop x.length with
      | '/' :: w => (lazyRepoName sshEndOk w).map (fun y => (x, y))
      | _ => none
  else none

/-- `re.match(r"https://github\.com/([^/]+)/(.+?)(?:\.git)?/?$", remote_url)`
(update_changelog.py:60-62): the two groups. -/
def httpsExtract (url : Str) : Option (Str × Str) :=
  if "https://github.com/".toList.isPrefixOf url then
    let r := url.drop 19
    let x := r.takeWhile (· ≠ '/')
    if x.isEmpty then none
    else
      match r.drop x.length with
      | '/' :: w => (lazyRepoName httpsEndOk w).map (fun y => (x, y))
      | _ => none
  else none

/-- `REPO_NAME.rstrip("/")` (update_changelog.py:66 and 69). -/
def rstripSlash (s : Str) : Str := (s.reverse.dropWhile (· = '/')).reverse

/-- The `try` body of `_get_repo_from_git` once the remote URL is in hand
(update_changelog.py:50-71): reject (raise) on an unvalidated shape, else
extract owner/name, else the `unknown/unknown` placeholder. -/
def repoFromRemoteUrl (url : Str) : Except Str (Str × Str) :=
  if !validRemote url then .error "Untrusted or malformed remote URL".toList
  else
    match sshExtract url with
    | some (o, n) => .ok (o, rstripSlash n)
    | none =>
      match httpsExtract url with
      | some (o, n) => .ok (o, rstripSlash n)
      | none => .ok ("unknown".toList, "unknown".toList)

/--
`_get_repo_from_git()` (update_changelog.py:38-77), reached only when the
environment provides no repository coordinates.  The `git config` subprocess
result is an `Except`; any exception inside the `try` (including the raised
`ValueError` for an unvalidated URL) yields the `unknown/unknown`
placeholder.
-/
def get_repo_from_git (remote : Except Str Str) : Str × Str :=
  match remote with
  | .error _ => ("unknown".toList, "unknown".toList)
  | .ok url =>
    match repoFromRemoteUrl url with
    | .ok p => p
    | .error _ => ("unknown".toList, "unknown".toList)

/-- The entries a record contributes under declarative grouping: records of
category `c`, in fetch order, rendered.  (Specification-side companion of the
dict built in `build_changelog_content`.) -/
def entriesFor (prs : List PullReq) (c : Str) : List Str :=
  (prs.filter
    (fun pr => categorize_change pr.title pr.body pr.labels = c)).map
    (fun pr => extract_changelog_entry pr.title pr.body pr.number pr.htmlUrl)

/-- The ordered, empty-free section list claim C7 describes: categories in
enumeration order, each with its entries, empty categories omitted. -/
def orderedSections (prs : List PullReq) : List (Str × List Str) :=
  category_order.filterMap
    (fun c => if entriesFor prs c = [] then none else some (c, entriesFor prs c))

end Changelog

namespace Changelog

theorem findSub_nil_of_ne {pat : Str} (h : pat ≠ []) : findSub pat [] = none := by
  simp only [findSub]
  rw [if_neg]
  simp [List.isPrefixOf_iff_prefix, h]

theorem findSub_some_starts {pat s : Str} {i : Nat} (h : findSub pat s = some i) :
    pat <+: s.drop i := by
  induction s generalizing i with
  | nil =>
    simp only [findSub] at h
    split at h
    · rename_i hp
      rw [List.isPrefixOf_iff_prefix] at hp
      cases h
      simpa using hp
    · exact absurd h (by simp)
  | cons c rest ih =>
    simp only [findSub] at h
    split at h
    · rename_i hp
      cases h
      rw [List.isPrefixOf_iff_prefix] at hp
      simpa using hp
    · cases hrec : findSub pat rest with
      | none => rw [hrec] at h; simp at h
      | some j =>
        rw [hrec] at h
        simp only [Option.map_some'] at h
        cases h
        simpa using ih hrec

theorem findSub_some_min {pat s : Str} {i : Nat} (h : findSub pat s = some i) :
    ∀ k, k < i → ¬ pat <+: s.drop k := by
  induction s generalizing i with
  | nil =>
    intro k hk
    simp only [findSub] at h
    split at h
    · cases h; omega
    · exact absurd h (by simp)
  | cons c rest ih =>
    intro k hk
    simp only [findSub] at h
    split at h
    · cases h; omega
    · rename_i hp
      cases hrec : findSub pat rest with
      | none => rw [hrec] at h; simp at h
      | some j =>
        rw [hrec] at h
        simp only [Option.map_some'] at h
        cases h
        cases k with
        | zero =>
          simpa [List.isPrefixOf_iff_prefix] using hp
        | succ k' =>
          have := ih hrec k' (by omega)
          simpa using this

theorem findSub_of_prefix_min {pat s : Str} {i : Nat}
    (hp : pat <+: s.drop i) (hmin : ∀ k, k < i → ¬ pat <+: s.drop k) :
    findSub pat s = some i := by
  induction s generalizing i with
  | nil =>
    have hz : pat <+: ([] : Str) := by simpa using hp
    have : i = 0 := by
      by_contra hne
      exact hmin 0 (by omega) (by simpa using hz)
    subst this
    simp only [findSub]
    rw [if_pos]
    rw [List.isPrefixOf_iff_prefix]
    simpa using hp
  | cons c rest ih =>
    cases i with
    | zero =>
      simp only [findSub]
      rw [if_pos]
      rw [List.isPrefixOf_iff_prefix]
      simpa using hp
    | succ i' =>
      have h0 : ¬ pat <+: (c :: rest) := by
        have := hmin 0 (by omega)
        simpa using this
      simp only [findSub]
      rw [if_neg (by rw [List.isPrefixOf_iff_prefix]; exact h0)]
      have : findSub pat rest = some i' := by
        apply ih
        · simpa using hp
        · intro k hk
          have := hmin (k + 1) (by omega)
          simpa using this
      rw [this]
      rfl

theorem findSub_none_iff {pat s : Str} :
    findSub pat s = none ↔ ∀ k, ¬ pat <+: s.drop k := by
  constructor
  · intro h k
    induction s generalizing k with
    | nil =>
      simp only [findSub] at h
      split at h
      · simp at h
      · rename_i hp
        intro hc
        apply hp
        rw [List.isPrefixOf_iff_prefix]
        simpa using hc
    | cons c rest ih =>
      simp only [findSub] at h
      split at h
      · simp at h
      · rename_i hp
        cases hrec : findSub pat rest with
        | some j => rw [hrec] at h; simp at h
        | none =>
          cases k with
          | zero =>
            intro hc
            apply hp
            rw [List.isPrefixOf_iff_prefix]
            simpa using hc
          | succ k' =>
            have := ih hrec k'
            simpa using this
  · intro h
    cases hw : findSub pat s with
    | none => rfl
    | some i => exact absurd (findSub_some_starts hw) (h i)

/-- If `pat` occurs at `i`, the string splits around that occurrence. -/
theorem findSub_decomp {pat s : Str} {i : Nat} (h : findSub pat s = some i) :
    s = s.take i ++ pat ++ s.drop (i + pat.length) := by
  have hp := findSub_some_starts h
  obtain ⟨t, ht⟩ := hp
  conv_lhs => rw [← List.take_append_drop i s]
  rw [← ht]
  have : List.drop (i + pat.length) s = t := by
    have : List.drop (i + pat.length) s = List.drop pat.length (List.drop i s) := by
      rw [List.drop_drop]
    rw [this, ← ht]
    simp
  rw [this]
  simp

/--
Claim C4.  For every document, reassembling the three parts returned by parse
(preamble, managed region bounded by the next same-level marker, trailer)
around the managed marker line reproduces the original document exactly; when
the marker is absent, parse returns the whole document as preamble with an
empty id set and empty trailer.
-/
theorem claim_C4 (content : Str) :
    (containsSub unreleasedMarker content = true →
      (parse_changelog (some content)).1 ++ unreleasedMarker ++
        unreleasedContent content ++ (parse_changelog (some content)).2.2
        = content)
    ∧ (containsSub unreleasedMarker content = false →
      parse_changelog (some content) = (content, [], [])) := by
  cases hfind : findSub unreleasedMarker content with
  | none =>
    constructor
    · intro hc
      rw [containsSub, hfind] at hc
      simp at hc
    · intro _
      simp only [parse_changelog]
      rw [hfind]
  | some i =>
    constructor
    · intro _
      have hdec := findSub_decomp hfind
      simp only [parse_changelog, unreleasedContent]
      rw [hfind]
      simp only
      cases hnext :
          findSub nextSectionPat (content.drop (i + unreleasedMarker.length)) with
      | none =>
        simp only
        conv_rhs => rw [hdec]
        simp
      | some k =>
        simp only
        conv_rhs => rw [hdec]
        simp [List.append_assoc]
    · intro hc
      rw [containsSub, hfind] at hc
      simp at hc

/-- Witness for C4 at a concrete two-section document. -/
theorem claim_C4_witness :
    (parse_changelog
        (some "# C\n\n## [Unreleased]\n- x (#42)\n\n## [0.1.0]\ny\n".toList)).1 ++
      unreleasedMarker ++
      unreleasedContent "# C\n\n## [Unreleased]\n- x (#42)\n\n## [0.1.0]\ny\n".toList ++
      (parse_changelog
        (some "# C\n\n## [Unreleased]\n- x (#42)\n\n## [0.1.0]\ny\n".toList)).2.2
      = "# C\n\n## [Unreleased]\n- x (#42)\n\n## [0.1.0]\ny\n".toList :=
  (claim_C4 _).1 (by decide)

theorem findSome?_eq_none_of_all {α β : Type} {f : α → Option β} {l : List α}
    (h : ∀ x ∈ l, f x = none) : l.findSome? f = none := by
  induction l with
  | nil => rfl
  | cons x xs ih =>
    rw [List.findSome?_cons]
    rw [h x (by simp)]
    exact ih (fun y hy => h y (by simp [hy]))

theorem findSome?_first {α β : Type} {f : α → Option β} {pre : List α} {x : α}
    {suf : List α} {v : β} (hpre : ∀ a ∈ pre, f a = none) (hx : f x = some v) :
    (pre ++ x :: suf).findSome? f = some v := by
  induction pre with
  | nil => rw [List.nil_append, List.findSome?_cons, hx]
  | cons a rest ih =>
    rw [List.cons_append, List.findSome?_cons, hpre a (by simp)]
    exact ih (fun y hy => hpre y (by simp [hy]))

/--
Counterexample to claim C5 as stated: the claim says the mapping table's own
key iteration order decides the winner when a record carries multiple mapped
labels, but `categorize_change` iterates over the record's label list, so for
labels `["security", "feature"]` the code answers `Security` while the
table-order rule described by the claim (formalized as
`categorize_change_claimed`) answers `Added` (`feature` precedes `security`
in the table).
-/
theorem claim_C5_counterexample :
    categorize_change [] [] ["security".toList, "feature".toList]
      = "Security".toList
    ∧ categorize_change_claimed [] [] ["security".toList, "feature".toList]
      = "Added".toList
    ∧ "Security".toList ≠ "Added".toList := by
  refine ⟨by decide, by decide, by decide⟩

/--
Claim C5 as amended.  `categorize_change` first scans the record's labels in
*label-list* order, the first label that is a key of the fixed table deciding
the winner; if no label is a key it scans the table's keys, in the table's own
iteration order, as substrings of `lower(title ++ " " ++ body)`; and if
nothing matches it returns `Changed`.
-/
theorem claim_C5_amended :
    (∀ (t b : Str) (pre : List Str) (l : Str) (suf : List Str) (v : Str),
      (∀ x ∈ pre, alookup CATEGORY_MAPPING x = none) →
      alookup CATEGORY_MAPPING l = some v →
      categorize_change t b (pre ++ l :: suf) = v)
    ∧ (∀ (t b : Str) (ls : List Str) (preM : List (Str × Str)) (k v : Str)
        (sufM : List (Str × Str)),
      CATEGORY_MAPPING = preM ++ (k, v) :: sufM →
      (∀ x ∈ ls, alookup CATEGORY_MAPPING x = none) →
      (∀ kv ∈ preM, containsSub kv.1 (lowerStr (t ++ [' '] ++ b)) = false) →
      containsSub k (lowerStr (t ++ [' '] ++ b)) = true →
      categorize_change t b ls = v)
    ∧ (∀ (t b : Str) (ls : List Str),
      (∀ x ∈ ls, alookup CATEGORY_MAPPING x = none) →
      (∀ kv ∈ CATEGORY_MAPPING,
        containsSub kv.1 (lowerStr (t ++ [' '] ++ b)) = false) →
      categorize_change t b ls = "Changed".toList) := by
  refine ⟨?_, ?_, ?_⟩
  · intro t b pre l suf v hpre hl
    have : (pre ++ l :: suf).findSome? (alookup CATEGORY_MAPPING) = some v :=
      findSome?_first hpre hl
    simp only [categorize_change, this]
  · intro t b ls preM k v sufM hsplit hls hpreM hk
    have h1 : ls.findSome? (alookup CATEGORY_MAPPING) = none :=
      findSome?_eq_none_of_all hls
    have h2 : CATEGORY_MAPPING.findSome?
        (fun kv => if containsSub kv.1 (lowerStr (t ++ [' '] ++ b))
          then some kv.2 else none) = some v := by
      rw [hsplit]
      exact findSome?_first
        (fun a ha => by simpa using hpreM a ha) (by simpa using hk)
    simp only [categorize_change, h1, h2]
  · intro t b ls hls hall
    have h1 : ls.findSome? (alookup CATEGORY_MAPPING) = none :=
      findSome?_eq_none_of_all hls
    have h2 : CATEGORY_MAPPING.findSome?
        (fun kv => if containsSub kv.1 (lowerStr (t ++ [' '] ++ b))
          then some kv.2 else none) = none :=
      findSome?_eq_none_of_all (fun kv hkv => by simpa using hall kv hkv)
    simp only [categorize_change, h1, h2]

/-- Witness for the amended C5: an unmapped label before a mapped one, a
keyword hit after five non-matching table keys, and the default. -/
theorem claim_C5_amended_witness :
    categorize_change [] [] (["frontend".toList] ++ "bug".toList :: [])
      = "Fixed".toList
    ∧ categorize_change "improve bug handling".toList [] ["frontend".toList]
      = "Fixed".toList
    ∧ categorize_change "t5".toList [] [] = "Changed".toList := by
  refine ⟨claim_C5_amended.1 [] [] ["frontend".toList] "bug".toList []
      "Fixed".toList (by decide) (by decide),
    claim_C5_amended.2.1 "improve bug handling".toList [] ["frontend".toList]
      (CATEGORY_MAPPING.take 5) "bug".toList "Fixed".toList
      (CATEGORY_MAPPING.drop 6) (by decide) (by decide) (by decide) (by decide),
    claim_C5_amended.2.2 "t5".toList [] [] (by decide) (by decide)⟩

/--
Claim C6.  The rendered description prefers, in order: a nonempty (after
trimming) changelog-excerpt section of the body, used verbatim in place of the
title; otherwise the stripped title; and when the stripped title is empty the
whole line is the literal `PR #<id> (<url>)` form with no extra link suffix.
-/
theorem claim_C6 (pr_title pr_body : Str) (n : Nat) (url : Str) :
    (∀ g, pr_body ≠ [] → searchChangelogExcerpt pr_body = some g →
      pyStripChars g ≠ [] →
      extract_changelog_entry pr_title pr_body n url
        = pyStripChars g ++ refSuffix n url)
    ∧ ((pr_body = [] ∨ searchChangelogExcerpt pr_body = none ∨
        (∃ g, searchChangelogExcerpt pr_body = some g ∧ pyStripChars g = [])) →
      (cleanedTitle pr_title ≠ [] →
        extract_changelog_entry pr_title pr_body n url
          = cleanedTitle pr_title ++ refSuffix n url)
      ∧ (cleanedTitle pr_title = [] →
        extract_changelog_entry pr_title pr_body n url
          = "PR #".toList ++ natDigits n ++ " (".toList ++ url ++ ")".toList)) := by
  constructor
  · intro g hbody hsearch hstrip
    have hbe : pr_body.isEmpty = false := by
      cases pr_body with
      | nil => exact absurd rfl hbody
      | cons c r => rfl
    have hse : (pyStripChars g).isEmpty = false := by
      cases hc : pyStripChars g with
      | nil => exact absurd hc hstrip
      | cons c r => rfl
    simp [extract_changelog_entry, hbe, hsearch, hse]
  · intro hno
    have hnone : (if pr_body.isEmpty then none
        else
          match searchChangelogExcerpt pr_body with
          | some g => let c := pyStripChars g; if c.isEmpty then none else some c
          | none => none) = (none : Option Str) := by
      rcases hno with h | h | ⟨g, hg, hs⟩
      · subst h; rfl
      · cases hb : pr_body.isEmpty <;> simp [h]
      · cases hb : pr_body.isEmpty <;> simp [hg, hs]
    constructor
    · intro ht
      have hte : (cleanedTitle pr_title).isEmpty = false := by
        cases hc : cleanedTitle pr_title with
        | nil => exact absurd hc ht
        | cons c r => rfl
      simp only [extract_changelog_entry, hnone, hte]
      simp
    · intro ht
      have hte : (cleanedTitle pr_title).isEmpty = true := by
        rw [ht]; rfl
      simp only [extract_changelog_entry, hnone, hte]
      simp

/-- Witness for C6: the excerpt branch, the cleaned-title branch and the
`PR #` fallback at concrete records. -/
theorem claim_C6_witness :
    extract_changelog_entry "t".toList
        "## Changelog\nImproves latency by 3x\n## Notes\nmore".toList 9 "u".toList
      = "Improves latency by 3x ([#9](u))".toList
    ∧ extract_changelog_entry "feat: add cache eviction".toList [] 42 "u".toList
      = "add cache eviction ([#42](u))".toList
    ∧ extract_changelog_entry "**tmp** ".toList [] 7 "u".toList
      = "PR #7 (u)".toList := by
  refine ⟨?_, ?_, ?_⟩
  · exact
      ((claim_C6 "t".toList
          "## Changelog\nImproves latency by 3x\n## Notes\nmore".toList
          9 "u".toList).1 "Improves latency by 3x".toList (by decide)
        (by decide) (by decide)).trans (by decide)
  · exact
      (((claim_C6 "feat: add cache eviction".toList [] 42 "u".toList).2
          (Or.inl rfl)).1 (by decide)).trans (by decide)
  · exact
      (((claim_C6 "**tmp** ".toList [] 7 "u".toList).2
          (Or.inl rfl)).2 (by decide)).trans (by decide)

theorem alookup_addEntry_self (d : List (Str × List Str)) (cat : Str) (e : Str) :
    alookup (addEntryToDict d cat e) cat = some ((alookup d cat).getD [] ++ [e]) := by
  induction d with
  | nil => simp [addEntryToDict, alookup]
  | cons kv rest ih =>
    obtain ⟨k, es⟩ := kv
    by_cases hk : k = cat
    · subst hk
      simp [addEntryToDict, alookup]
    · simp [addEntryToDict, alookup, hk, ih]

theorem alookup_addEntry_ne (d : List (Str × List Str)) (cat e : Str) {c : Str}
    (h : c ≠ cat) : alookup (addEntryToDict d cat e) c = alookup d c := by
  have h' : cat ≠ c := Ne.symm h
  induction d with
  | nil => simp [addEntryToDict, alookup, h']
  | cons kv rest ih =>
    obtain ⟨k, es⟩ := kv
    by_cases hk : k = cat
    · subst hk
      simp [addEntryToDict, alookup, h']
    · by_cases hc : k = c <;> simp [addEntryToDict, alookup, hk, hc, ih, h]

theorem entriesFor_cons (pr : PullReq) (rest : List PullReq) (c : Str) :
    entriesFor (pr :: rest) c =
      if categorize_change pr.title pr.body pr.labels = c then
        extract_changelog_entry pr.title pr.body pr.number pr.htmlUrl ::
          entriesFor rest c
      else entriesFor rest c := by
  by_cases h : categorize_change pr.title pr.body pr.labels = c <;>
    simp [entriesFor, List.filter_cons, h]

theorem alookup_buildDict_some (prs : List PullReq) :
    ∀ (acc : List (Str × List Str)) (c : Str) (es : List Str),
    alookup acc c = some es →
    alookup (prs.foldl
      (fun d pr =>
        addEntryToDict d (categorize_change pr.title pr.body pr.labels)
          (extract_changelog_entry pr.title pr.body pr.number pr.htmlUrl))
      acc) c = some (es ++ entriesFor prs c) := by
  induction prs with
  | nil => intro acc c es h; simpa [entriesFor] using h
  | cons pr rest ih =>
    intro acc c es h
    rw [List.foldl_cons, entriesFor_cons]
    by_cases hc : categorize_change pr.title pr.body pr.labels = c
    · rw [if_pos hc]
      have : alookup
          (addEntryToDict acc (categorize_change pr.title pr.body pr.labels)
            (extract_changelog_entry pr.title pr.body pr.number pr.htmlUrl)) c
          = some (es ++
            [extract_changelog_entry pr.title pr.body pr.number pr.htmlUrl]) := by
        rw [hc, alookup_addEntry_self, h]
        rfl
      have h2 := ih _ c _ this
      rw [h2]
      simp
    · rw [if_neg hc]
      exact ih _ c es (by
        rw [alookup_addEntry_ne _ _ _ (fun hh => hc hh.symm)]
        exact h)

theorem alookup_buildDict_none (prs : List PullReq) :
    ∀ (acc : List (Str × List Str)) (c : Str),
    alookup acc c = none →
    alookup (prs.foldl
      (fun d pr =>
        addEntryToDict d (categorize_change pr.title pr.body pr.labels)
          (extract_changelog_entry pr.title pr.body pr.number pr.htmlUrl))
      acc) c =
      if entriesFor prs c = [] then none else some (entriesFor prs c) := by
  induction prs with
  | nil => intro acc c h; simpa [entriesFor] using h
  | cons pr rest ih =>
    intro acc c h
    rw [List.foldl_cons, entriesFor_cons]
    by_cases hc : categorize_change pr.title pr.body pr.labels = c
    · rw [if_pos hc]
      have : alookup
          (addEntryToDict acc (categorize_change pr.title pr.body pr.labels)
            (extract_changelog_entry pr.title pr.body pr.number pr.htmlUrl)) c
          = some ([extract_changelog_entry pr.title pr.body pr.number pr.htmlUrl]) := by
        rw [hc, alookup_addEntry_self, h]
        rfl
      have h2 := alookup_buildDict_some rest _ c _ this
      rw [h2]
      simp
    · rw [if_neg hc]
      exact ih _ c (by
        rw [alookup_addEntry_ne _ _ _ (fun hh => hc hh.symm)]
        exact h)

theorem renderFold_eq (d : List (Str × List Str)) :
    ∀ (cats : List Str) (init : Str),
    cats.foldl
      (fun content cat =>
        match alookup d cat with
        | some es => content ++ format_changelog_section cat es
        | none => content)
      init
    = init ++
      (cats.filterMap
        (fun c => (alookup d c).map (fun es => format_changelog_section c es))).flatten := by
  intro cats
  induction cats with
  | nil => intro init; simp
  | cons c rest ih =>
    intro init
    rw [List.foldl_cons, List.filterMap_cons]
    cases hc : alookup d c with
    | none => simpa using ih init
    | some es =>
      simp only [Option.map_some']
      rw [List.flatten_cons, ih, List.append_assoc]

theorem mapFst_orderedSections (prs : List PullReq) :
    (orderedSections prs).map Prod.fst
      = category_order.filter (fun c => !decide (entriesFor prs c = [])) := by
  rw [orderedSections]
  generalize category_order = cats
  induction cats with
  | nil => rfl
  | cons c rest ih =>
    rw [List.filterMap_cons, List.filter_cons]
    by_cases h : entriesFor prs c = [] <;> simp [h, ih]

/--
Claim C7.  The rebuilt managed region is the header line followed by the
sections of `orderedSections`: the categories listed there form a sublist of
the fixed enumeration `Added, Changed, Deprecated, Removed, Fixed, Security`
(so a later-enumeration category's subheading is never placed before an
earlier one's), and a category is listed there exactly when it has at least
one entry (categories with no entries are omitted entirely).
-/
theorem claim_C7 (prs : List PullReq) :
    build_changelog_content prs
      = unreleasedHeaderLine ++
        ((orderedSections prs).map
          (fun s => format_changelog_section s.1 s.2)).flatten
    ∧ ((orderedSections prs).map Prod.fst).Sublist category_order
    ∧ ∀ c, c ∈ (orderedSections prs).map Prod.fst ↔
        c ∈ category_order ∧ entriesFor prs c ≠ [] := by
  refine ⟨?_, ?_, ?_⟩
  · rw [build_changelog_content]
    simp only [renderUnreleased]
    rw [renderFold_eq]
    have hmap : ∀ c : Str,
        (alookup
          (prs.foldl
            (fun d pr =>
              addEntryToDict d (categorize_change pr.title pr.body pr.labels)
                (extract_changelog_entry pr.title pr.body pr.number pr.htmlUrl))
            []) c).map (fun es => format_changelog_section c es)
        = if entriesFor prs c = [] then none
          else some (format_changelog_section c (entriesFor prs c)) := by
      intro c
      rw [alookup_buildDict_none prs [] c rfl]
      by_cases h : entriesFor prs c = [] <;> simp [h]
    have : (orderedSections prs).map (fun s => format_changelog_section s.1 s.2)
        = category_order.filterMap
            (fun c => if entriesFor prs c = [] then none
              else some (format_changelog_section c (entriesFor prs c))) := by
      rw [orderedSections, List.map_filterMap]
      congr 1
      funext c
      by_cases h : entriesFor prs c = [] <;> simp [h]
    rw [this]
    rw [List.filterMap_congr (fun c _ => hmap c)]
  · rw [mapFst_orderedSections]
    exact List.filter_sublist category_order
  · intro c
    rw [mapFst_orderedSections]
    simp [List.mem_filter]

/--
Claim C3.  Whenever the record's id is already in the existing-id set that
parse extracts from the document, single-record mode returns the no-update
signal and leaves the file state untouched (the source returns `False` before
any `write_text`).
-/
theorem claim_C3 (pr_number : Nat) (pr_title pr_body pr_author pr_url : Str)
    (labels : List Str) (file : Option Str)
    (h : pr_number ∈ (parse_changelog file).2.1) :
    update_changelog_single_pr pr_number pr_title pr_body pr_author pr_url
      labels file = (false, file) := by
  simp only [update_changelog_single_pr]
  rw [if_pos h]

/-- Witness for C3: id 42 already present as `(#42)` in the unreleased
region. -/
theorem claim_C3_witness :
    42 ∈ (parse_changelog (some "## [Unreleased]\n- x (#42)\n".toList)).2.1
    ∧ update_changelog_single_pr 42 "t".toList [] "alice".toList "u".toList []
        (some "## [Unreleased]\n- x (#42)\n".toList)
      = (false, some "## [Unreleased]\n- x (#42)\n".toList) :=
  ⟨by decide,
    claim_C3 42 "t".toList [] "alice".toList "u".toList []
      (some "## [Unreleased]\n- x (#42)\n".toList) (by decide)⟩

/--
Claim C2 is violated by the code; this theorem evaluates the code at the
failing input.  The document's managed region already holds the rendered
`Added` entry `- old entry ([#1](u1))`, and record 2 (labelled `bug`, so
category `Fixed`, a different category) is not yet present; the claim says the
merge must leave that previously-rendered entry present and unchanged, but the
code rewrites the region to hold only the new entry: the old entry no longer
occurs anywhere in the resulting document.  (The source even contains the
front-insertion and region-re-parsing machinery the claim describes, but
feeds it text recovered from `before`, which by construction of
`parse_changelog` can never contain the managed marker, so the recovered
region text is always empty.)
-/
theorem claim_C2_code_eval :
    containsSub "- old entry ([#1](u1))".toList
      "# Changelog\n\n## [Unreleased]\n\n### Added\n- old entry ([#1](u1))\n\n## [0.1.0]\nx\n".toList
      = true
    ∧ (2 ∈ (parse_changelog (some
        "# Changelog\n\n## [Unreleased]\n\n### Added\n- old entry ([#1](u1))\n\n## [0.1.0]\nx\n".toList)).2.1)
      = False
    ∧ update_changelog_single_pr 2 "fix: crash".toList [] "alice".toList
        "u2".toList ["bug".toList]
        (some "# Changelog\n\n## [Unreleased]\n\n### Added\n- old entry ([#1](u1))\n\n## [0.1.0]\nx\n".toList)
      = (true, some
        "# Changelog\n\n## [Unreleased]\n\n### Fixed\n- crash ([#2](u2))\n\n## [0.1.0]\nx\n".toList)
    ∧ containsSub "- old entry ([#1](u1))".toList
        "# Changelog\n\n## [Unreleased]\n\n### Fixed\n- crash ([#2](u2))\n\n## [0.1.0]\nx\n".toList
      = false := by
  refine ⟨by decide, by decide, by decide, by decide⟩

theorem alookup_mem_values {α : Type} {d : List (Str × α)} {key : Str} {v : α}
    (h : alookup d key = some v) : v ∈ d.map Prod.snd := by
  induction d with
  | nil => simp [alookup] at h
  | cons kv rest ih =>
    obtain ⟨k, w⟩ := kv
    simp only [alookup] at h
    split at h
    · cases h
      rw [List.map_cons]
      exact List.mem_cons_self _ _
    · rw [List.map_cons]
      exact List.mem_cons_of_mem _ (ih h)

theorem findSome?_mem_image {α β : Type} {f : α → Option β} {l : List α} {v : β}
    (h : l.findSome? f = some v) : ∃ x ∈ l, f x = some v := by
  induction l with
  | nil => simp at h
  | cons a rest ih =>
    rw [List.findSome?_cons] at h
    cases hf : f a with
    | some w =>
      rw [hf] at h
      cases h
      exact ⟨a, by simp, hf⟩
    | none =>
      rw [hf] at h
      obtain ⟨x, hx, hfx⟩ := ih h
      exact ⟨x, by simp [hx], hfx⟩

/-- The classifier always answers one of the six enumeration categories. -/
theorem categorize_mem (t b : Str) (ls : List Str) :
    categorize_change t b ls ∈ category_order := by
  have hvals : ∀ v ∈ CATEGORY_MAPPING.map Prod.snd, v ∈ category_order := by
    decide
  simp only [categorize_change]
  split
  · rename_i v h1
    obtain ⟨x, _, hx⟩ := findSome?_mem_image h1
    exact hvals v (alookup_mem_values hx)
  · split
    · rename_i v h2
      obtain ⟨kv, hkv, hf⟩ := findSome?_mem_image h2
      split at hf
      · cases hf
        exact hvals kv.2 (List.mem_map_of_mem Prod.snd hkv)
      · cases hf
    · decide

/-- Rendering a one-key dict whose key is an enumeration category yields the
header line followed by exactly that category's section. -/
theorem renderUnreleased_single (c e : Str) (hc : c ∈ category_order) :
    renderUnreleased [(c, [e])]
      = unreleasedHeaderLine ++ format_changelog_section c [e] := by
  fin_cases hc <;> rfl

/--
Claim C10.  When the changelog file does not exist, parse returns an empty
preamble, an empty existing-id set and an empty trailer, and a subsequent
single-record merge signals an update and creates the file as a freshly
synthesized unreleased region holding the new entry.
-/
theorem claim_C10 :
    parse_changelog none = ([], [], [])
    ∧ ∀ (n : Nat) (t b a u : Str) (ls : List Str),
      update_changelog_single_pr n t b a u ls none
        = (true, some (unreleasedHeaderLine ++
            format_changelog_section (categorize_change t b ls)
              [extract_changelog_entry t b n u])) := by
  refine ⟨rfl, ?_⟩
  intro n t b a u ls
  have hc := categorize_mem t b ls
  have hstep : update_changelog_single_pr n t b a u ls none
      = (true, some (renderUnreleased
          [(categorize_change t b ls, [extract_changelog_entry t b n u])] ++ [])) := by
    rfl
  rw [hstep, renderUnreleased_single _ _ hc]
  simp

/--
Claim C8.  A failing primary fetch (transport failure, non-2xx response or
malformed payload, all of which raise inside the `try` and are caught) is
never surfaced: the adapter answers with the git-history fallback, and when
the fallback's subprocess itself fails the adapter answers the empty list.
The adapter's result type is a plain list — there is no error channel left to
surface on.
-/
theorem claim_C8 (e : Str) (gitOut : Except Str Str) (owner repo : Str)
    (limit : Nat) :
    get_merged_prs_since (Except.error e) gitOut owner repo limit
      = get_merged_prs_from_git gitOut owner repo limit
    ∧ ∀ e2 : Str,
      get_merged_prs_from_git (Except.error e2) owner repo limit = [] :=
  ⟨rfl, fun _ => rfl⟩

/--
Claim C9.  With no environment-provided coordinates, a remote URL that fails
the strict allow-list check makes `_get_repo_from_git` raise inside its own
`try` and return the `unknown/unknown` placeholder instead of failing or
using the URL; a failing `git config` subprocess ends the same way.
-/
theorem claim_C9 (url : Str) (h : validRemote url = false) :
    get_repo_from_git (Except.ok url)
      = ("unknown".toList, "unknown".toList)
    ∧ ∀ e : Str, get_repo_from_git (Except.error e)
      = ("unknown".toList, "unknown".toList) := by
  refine ⟨?_, fun _ => rfl⟩
  simp [get_repo_from_git, repoFromRemoteUrl, h]

/-- Witness for C9: a plain-HTTP URL is outside the allow-list. -/
theorem claim_C9_witness :
    validRemote "http://github.com/own/rep.git".toList = false
    ∧ get_repo_from_git (Except.ok "http://github.com/own/rep.git".toList)
      = ("unknown".toList, "unknown".toList) :=
  ⟨by decide, (claim_C9 "http://github.com/own/rep.git".toList (by decide)).1⟩

/--
Counterexample to claim C1 as stated.  The document's unreleased region
already references record 5 through the `(#5)` dedup pattern, so the first
bulk run filters record 5 out and rewrites the region without it — but the
rendered link form `([#5](u5))` is not matched by the dedup pattern
`\(#(\d+)\)`, so the second run finds an empty existing-id set, re-adds
record 5, and produces a different document.
-/
theorem claim_C1_counterexample :
    build_full_changelog_from_history
        [⟨5, "t5".toList, [], "u5".toList, []⟩]
        (build_full_changelog_from_history
          [⟨5, "t5".toList, [], "u5".toList, []⟩]
          (some "## [Unreleased]\n- old (#5)\n".toList))
      ≠ build_full_changelog_from_history
          [⟨5, "t5".toList, [], "u5".toList, []⟩]
          (some "## [Unreleased]\n- old (#5)\n".toList) := by
  decide

theorem markerNeNil : unreleasedMarker ≠ [] := by decide

theorem subF_congr (repl : Str) :
    ∀ (n m : Nat) (s : Str), s.length ≤ n → s.length ≤ m →
    subUnreleasedF repl n s = subUnreleasedF repl m s := by
  intro n
  induction n with
  | zero =>
    intro m s hn _
    have hs : s = [] := List.length_eq_zero.mp (Nat.le_zero.mp hn)
    subst hs
    cases m with
    | zero => rfl
    | succ m' =>
      simp only [subUnreleasedF]
      rw [findSub_nil_of_ne markerNeNil]
  | succ n' ih =>
    intro m s hn hm
    cases m with
    | zero =>
      have hs : s = [] := List.length_eq_zero.mp (Nat.le_zero.mp hm)
      subst hs
      simp only [subUnreleasedF]
      rw [findSub_nil_of_ne markerNeNil]
    | succ m' =>
      simp only [subUnreleasedF]
      cases hf : findSub unreleasedMarker s with
      | none => rfl
      | some i =>
        show s.take i ++ repl ++ subUnreleasedF repl n' (s.drop (regionEnd s i))
          = s.take i ++ repl ++ subUnreleasedF repl m' (s.drop (regionEnd s i))
        have h1 : 1 ≤ regionEnd s i := by
          rw [regionEnd]
          have : unreleasedMarker.length = 15 := by decide
          omega
        have hlen : (s.drop (regionEnd s i)).length ≤ s.length - 1 := by
          rw [List.length_drop]
          omega
        have hne : s ≠ [] := by
          intro hcon
          rw [hcon, findSub_nil_of_ne markerNeNil] at hf
          exact absurd hf (by simp)
        have hpos : 1 ≤ s.length := by
          cases s with
          | nil => exact absurd rfl hne
          | cons a r => simp
        rw [ih m' (s.drop (regionEnd s i)) (by omega) (by omega)]

theorem subUnreleased_eq_none {repl s : Str}
    (hf : findSub unreleasedMarker s = none) : subUnreleased repl s = s := by
  rw [subUnreleased]
  cases hl : s.length with
  | zero => rfl
  | succ k =>
    simp only [subUnreleasedF]
    rw [hf]

theorem subUnreleased_eq_some {repl s : Str} {i : Nat}
    (hf : findSub unreleasedMarker s = some i) :
    subUnreleased repl s
      = s.take i ++ repl ++ subUnreleased repl (s.drop (regionEnd s i)) := by
  have hne : s ≠ [] := by
    intro hcon
    rw [hcon, findSub_nil_of_ne markerNeNil] at hf
    exact absurd hf (by simp)
  rw [subUnreleased]
  cases hs : s with
  | nil => exact absurd hs hne
  | cons c rest =>
    rw [← hs]
    have hl : s.length = rest.length + 1 := by rw [hs]; rfl
    rw [hl]
    simp only [subUnreleasedF]
    rw [hf]
    show s.take i ++ repl ++ subUnreleasedF repl rest.length (s.drop (regionEnd s i))
      = s.take i ++ repl ++ subUnreleased repl (s.drop (regionEnd s i))
    rw [subUnreleased]
    have h1 : 1 ≤ regionEnd s i := by
      rw [regionEnd]
      have : unreleasedMarker.length = 15 := by decide
      omega
    have hlen : (s.drop (regionEnd s i)).length ≤ rest.length := by
      rw [List.length_drop, hl]
      omega
    rw [subF_congr repl rest.length (s.drop (regionEnd s i)).length
      (s.drop (regionEnd s i)) hlen (Nat.le_refl _)]

theorem take_of_starts {p B : Str} (h : p <+: B) {m : Nat} (hm : m ≤ p.length) :
    B.take m = p.take m := by
  obtain ⟨t, rfl⟩ := h
  rw [List.take_append_eq_append_take]
  have h0 : m - p.length = 0 := by omega
  rw [h0]
  simp

theorem prefix_append_congr {p : Str} (A : Str) {B B' : Str}
    (hB : p <+: B) (hB' : p <+: B') : (p <+: A ++ B) ↔ (p <+: A ++ B') := by
  rw [List.prefix_iff_eq_take, List.prefix_iff_eq_take,
    List.take_append_eq_append_take, List.take_append_eq_append_take,
    take_of_starts hB (by omega), take_of_starts hB' (by omega)]

/-- Replacing everything from the first occurrence of `pat` on by any text
that still starts with `pat` keeps the first occurrence at the same index. -/
theorem findSub_replace {pat s : Str} {i : Nat} (hi : findSub pat s = some i)
    (hne : pat ≠ []) {B : Str} (hB : pat <+: B) :
    findSub pat (s.take i ++ B) = some i := by
  have hp := findSub_some_starts hi
  have hil : i < s.length := by
    by_contra hcon
    rw [List.drop_eq_nil_of_le (by omega)] at hp
    exact hne (List.prefix_nil.mp hp)
  have htl : (s.take i).length = i := by
    rw [List.length_take]
    omega
  apply findSub_of_prefix_min
  · rw [List.drop_append_eq_append_drop, htl,
      List.drop_eq_nil_of_le (by omega : (s.take i).length ≤ i), Nat.sub_self]
    simpa using hB
  · intro k hk
    rw [List.drop_append_eq_append_drop, htl,
      show k - i = 0 by omega, List.drop_zero]
    have hsplit : s.drop k = (s.take i).drop k ++ s.drop i := by
      conv_lhs => rw [← List.take_append_drop i s]
      rw [List.drop_append_eq_append_drop, htl,
        show k - i = 0 by omega, List.drop_zero]
    have hmin := findSub_some_min hi k hk
    rw [hsplit] at hmin
    intro hcon
    exact hmin ((prefix_append_congr ((s.take i).drop k) hp hB).mpr hcon)

theorem boundaryLen : nextSectionPat.length = 5 := by decide

/-- With no boundary occurrence inside `A`, `A` ending in a newline and `B`
starting with the boundary, the first boundary occurrence of `A ++ B` sits
exactly at the junction. -/
theorem findSub_boundary_concat {A B : Str}
    (hA : findSub nextSectionPat A = none) (hlast : A.getLast? = some '\n')
    (hB : nextSectionPat <+: B) :
    findSub nextSectionPat (A ++ B) = some A.length := by
  apply findSub_of_prefix_min
  · rw [List.drop_append_eq_append_drop,
      List.drop_eq_nil_of_le (Nat.le_refl _), Nat.sub_self]
    simpa using hB
  · intro k hk
    intro hcon
    rw [List.drop_append_eq_append_drop] at hcon
    have hk0 : k - A.length = 0 := by omega
    rw [hk0, List.drop_zero] at hcon
    have hd : 1 ≤ (A.drop k).length := by
      rw [List.length_drop]
      omega
    by_cases h5 : 5 ≤ (A.drop k).length
    · have : nextSectionPat <+: A.drop k := by
        rw [List.prefix_iff_eq_take] at hcon ⊢
        rw [List.take_append_eq_append_take] at hcon
        have h0 : nextSectionPat.length - (A.drop k).length = 0 := by
          rw [boundaryLen]; omega
        rw [h0] at hcon
        simpa using hcon
      exact (findSub_none_iff.mp hA k) this
    · have hXeq : A.drop k = nextSectionPat.take (A.drop k).length := by
        obtain ⟨u, hu⟩ := hcon
        have := congrArg (List.take (A.drop k).length) hu
        rw [List.take_append_eq_append_take,
          show (A.drop k).length - nextSectionPat.length = 0 by
            rw [boundaryLen]; omega,
          List.take_zero, List.append_nil,
          List.take_append_eq_append_take, List.take_of_length_le (Nat.le_refl _),
          Nat.sub_self, List.take_zero, List.append_nil] at this
        exact this.symm
      have hlastA : (A.drop k).getLast? = some '\n' := by
        have hsplit : A = A.take k ++ A.drop k := (List.take_append_drop k A).symm
        rw [hsplit, List.getLast?_append] at hlast
        cases hgl : (A.drop k).getLast? with
        | none =>
          exfalso
          rw [List.getLast?_eq_none_iff] at hgl
          rw [hgl] at hd
          simp at hd
        | some c =>
          rw [hgl, Option.or_some] at hlast
          cases hlast
          rfl
      have hlen4 : (A.drop k).length < 5 := by omega
      interval_cases hcase : (A.drop k).length
      · have hX1 : A.drop k = ['\n'] := by rw [hXeq]; decide
        obtain ⟨u, hu⟩ := hcon
        rw [hX1] at hu
        have hBeq : B = nextSectionPat.drop 1 ++ u := by
          have h3 := congrArg (List.drop 1) hu
          rw [List.drop_append_eq_append_drop, List.drop_append_eq_append_drop,
            show 1 - nextSectionPat.length = 0 by decide, List.drop_zero,
            show (1 : Nat) - (List.length (['\n'] : Str)) = 0 by decide,
            List.drop_zero,
            show List.drop 1 (['\n'] : Str) = [] by decide,
            List.nil_append] at h3
          exact h3.symm
        have h1 : B.take 4 = "\n## ".toList := by
          rw [take_of_starts hB (by decide)]
          decide
        have h2 : B.take 4 = "## [".toList := by
          rw [hBeq, List.take_append_eq_append_take,
            List.take_of_length_le (by decide),
            show 4 - (nextSectionPat.drop 1).length = 0 by decide,
            List.take_zero, List.append_nil]
          decide
        rw [h1] at h2
        exact absurd h2 (by decide)
      · rw [hXeq] at hlastA
        exact absurd hlastA (by decide)
      · rw [hXeq] at hlastA
        exact absurd hlastA (by decide)
      · rw [hXeq] at hlastA
        exact absurd hlastA (by decide)

/-- Substitution keeps a leading `\n## [` boundary: the replacement itself
starts with the marker, whose first four characters are `## [`. -/
theorem boundary_prefix_sub {R : Str} (hR : unreleasedMarker <+: R)
    (s : Str) (hs : nextSectionPat <+: s) :
    nextSectionPat <+: subUnreleased R s := by
  cases hf : findSub unreleasedMarker s with
  | none => rw [subUnreleased_eq_none hf]; exact hs
  | some i =>
    rw [subUnreleased_eq_some hf]
    obtain ⟨t, rfl⟩ := hs
    have hp := findSub_some_starts hf
    have hRlen : 15 ≤ R.length := by
      have h15 : unreleasedMarker.length = 15 := by decide
      have := hR.length_le
      omega
    have hlen : i < (nextSectionPat ++ t).length := by
      by_contra hcon
      rw [List.drop_eq_nil_of_le (by omega)] at hp
      exact markerNeNil (List.prefix_nil.mp hp)
    have hi1 : i = 1 ∨ 5 ≤ i := by
      rcases Nat.lt_or_ge i 5 with h5 | h5
      · left
        obtain ⟨u, hu⟩ := hp
        rw [List.drop_append_eq_append_drop,
          show i - nextSectionPat.length = 0 by rw [boundaryLen]; omega,
          List.drop_zero] at hu
        have hkey := congrArg (List.take (5 - i)) hu
        rw [List.take_append_eq_append_take,
          show 5 - i - unreleasedMarker.length = 0 by
            have h15 : unreleasedMarker.length = 15 := by decide
            omega,
          List.take_zero, List.append_nil,
          List.take_append_eq_append_take,
          show 5 - i - (nextSectionPat.drop i).length = 0 by
            rw [List.length_drop, boundaryLen]; omega,
          List.take_zero, List.append_nil] at hkey
        interval_cases i
        · exact absurd hkey (by decide)
        · rfl
        · exact absurd hkey (by decide)
        · exact absurd hkey (by decide)
        · exact absurd hkey (by decide)
      · right; exact h5
    rcases hi1 with h1 | h5
    · subst h1
      have ht1 : (nextSectionPat ++ t).take 1 = ['\n'] := by
        rw [List.take_append_eq_append_take,
          show (1 : Nat) - nextSectionPat.length = 0 by decide,
          List.take_zero, List.append_nil]
        decide
      rw [List.prefix_iff_eq_take, boundaryLen, ht1, List.append_assoc,
        List.take_append_eq_append_take,
        show List.take 5 (['\n'] : Str) = ['\n'] by decide,
        show (5 : Nat) - (List.length (['\n'] : Str)) = 4 by decide,
        List.take_append_eq_append_take,
        take_of_starts hR (show (4 : Nat) ≤ unreleasedMarker.length by decide),
        show (4 : Nat) - R.length = 0 by omega, List.take_zero, List.append_nil]
      decide
    · rw [List.prefix_iff_eq_take, boundaryLen, List.append_assoc,
        List.take_append_eq_append_take, List.take_take,
        show (5 : Nat) ⊓ i = 5 by omega,
        show ((nextSectionPat ++ t).take i).length = i by
          rw [List.length_take]; omega,
        show 5 - i = 0 by omega, List.take_zero, List.append_nil,
        List.take_append_eq_append_take,
        show 5 - nextSectionPat.length = 0 by decide,
        List.take_zero, List.append_nil,
        List.take_of_length_le (show nextSectionPat.length ≤ 5 by decide)]

theorem subUnreleased_nil (R : Str) : subUnreleased R [] = [] :=
  subUnreleased_eq_none (findSub_nil_of_ne markerNeNil)

/-- The text after a region match is either empty or starts with the boundary,
and substitution keeps that shape. -/
theorem regionTail_cases {R : Str} (hR : unreleasedMarker <+: R) {s : Str}
    {i : Nat} (hf : findSub unreleasedMarker s = some i) :
    subUnreleased R (s.drop (regionEnd s i)) = []
    ∨ nextSectionPat <+: subUnreleased R (s.drop (regionEnd s i)) := by
  cases hb : findSub nextSectionPat (s.drop (i + unreleasedMarker.length)) with
  | none =>
    left
    have hp := findSub_some_starts hf
    have h15 : unreleasedMarker.length = 15 := by decide
    have hi15 : i + 15 ≤ s.length := by
      have := hp.length_le
      rw [List.length_drop] at this
      omega
    have hdrop : s.drop (regionEnd s i) = [] := by
      rw [regionEnd, hb]
      simp only [Option.getD_none]
      apply List.drop_eq_nil_of_le
      omega
    rw [hdrop, subUnreleased_nil]
  | some k =>
    right
    apply boundary_prefix_sub hR
    have hbp := findSub_some_starts hb
    rw [List.drop_drop] at hbp
    rw [regionEnd, hb]
    simpa using hbp

/-- When `R` ends in a newline and properly extends the marker, its
post-marker part also ends in that newline. -/
theorem dropMarker_getLast {R : Str} (hpre : unreleasedMarker <+: R)
    (hlast : R.getLast? = some '\n') :
    (R.drop unreleasedMarker.length).getLast? = some '\n' := by
  have hRlen : 15 ≤ R.length := by
    have h15 : unreleasedMarker.length = 15 := by decide
    have := hpre.length_le
    omega
  have hne : R.drop unreleasedMarker.length ≠ [] := by
    intro hcon
    have hlen : R.length ≤ unreleasedMarker.length := by
      have := congrArg List.length hcon
      rw [List.length_drop] at this
      simp at this
      omega
    have : R = unreleasedMarker :=
      (List.IsPrefix.eq_of_length hpre (by
        have := hpre.length_le
        omega)).symm ▸ rfl
    rw [this] at hlast
    exact absurd hlast (by decide)
  rw [← List.take_append_drop unreleasedMarker.length R, List.getLast?_append]
    at hlast
  cases hgl : (R.drop unreleasedMarker.length).getLast? with
  | none => exact absurd (List.getLast?_eq_none_iff.mp hgl) hne
  | some c =>
    rw [hgl, Option.or_some] at hlast
    cases hlast
    rfl

/-- First boundary occurrence after substitution: with no boundary inside the
replacement's tail, it sits exactly at the end of the replacement (or is
absent when nothing follows). -/
theorem findSub_boundary_after {R : Str} (hpre : unreleasedMarker <+: R)
    (hbnd : findSub nextSectionPat (R.drop unreleasedMarker.length) = none)
    (hlast : R.getLast? = some '\n') {T : Str}
    (hT : T = [] ∨ nextSectionPat <+: T) :
    findSub nextSectionPat (R.drop unreleasedMarker.length ++ T)
      = if T = [] then none
        else some (R.drop unreleasedMarker.length).length := by
  rcases hT with hT | hT
  · rw [if_pos hT, hT, List.append_nil]
    exact hbnd
  · have hTne : T ≠ [] := by
      intro hcon
      rw [hcon] at hT
      exact (by decide : nextSectionPat ≠ []) (List.prefix_nil.mp hT)
    rw [if_neg hTne]
    exact findSub_boundary_concat hbnd (dropMarker_getLast hpre hlast) hT

theorem take_idx_of_findSub {pat s : Str} {i : Nat}
    (hf : findSub pat s = some i) (hne : pat ≠ []) : (s.take i).length = i := by
  have hp := findSub_some_starts hf
  have hil : i < s.length := by
    by_contra hcon
    rw [List.drop_eq_nil_of_le (by omega)] at hp
    exact hne (List.prefix_nil.mp hp)
  rw [List.length_take]
  omega

/-- One unfolding of the outer substitution in `sub (sub s)`: the region that
the second pass matches is exactly the replacement `R` that the first pass
wrote, so the second pass rewrites it in place and recurses on the
already-substituted remainder. -/
theorem sub_sub_step {R : Str} (hpre : unreleasedMarker <+: R)
    (hbnd : findSub nextSectionPat (R.drop unreleasedMarker.length) = none)
    (hlast : R.getLast? = some '\n') {s : Str} {i : Nat}
    (hf : findSub unreleasedMarker s = some i) :
    subUnreleased R (subUnreleased R s)
      = s.take i ++ R ++
        subUnreleased R (subUnreleased R (s.drop (regionEnd s i))) := by
  have hRlen : 15 ≤ R.length := by
    have h15 : unreleasedMarker.length = 15 := by decide
    have := hpre.length_le
    omega
  have h15 : unreleasedMarker.length = 15 := by decide
  have htl := take_idx_of_findSub hf markerNeNil
  have hTcases := regionTail_cases hpre hf
  rw [subUnreleased_eq_some hf, List.append_assoc]
  have hfind : findSub unreleasedMarker
      (s.take i ++ (R ++ subUnreleased R (s.drop (regionEnd s i)))) = some i :=
    findSub_replace hf markerNeNil
      (hpre.trans (List.prefix_append R _))
  rw [subUnreleased_eq_some hfind]
  have htakeA : (s.take i ++
      (R ++ subUnreleased R (s.drop (regionEnd s i)))).take i = s.take i := by
    rw [List.take_append_eq_append_take, htl, Nat.sub_self, List.take_zero,
      List.append_nil, List.take_take, Nat.min_self]
  have hdropA : (s.take i ++
      (R ++ subUnreleased R (s.drop (regionEnd s i)))).drop
        (i + unreleasedMarker.length)
      = R.drop unreleasedMarker.length ++
          subUnreleased R (s.drop (regionEnd s i)) := by
    rw [List.drop_append_eq_append_drop, htl,
      List.drop_eq_nil_of_le (by rw [htl]; omega), List.nil_append,
      show i + unreleasedMarker.length - i = unreleasedMarker.length by omega,
      List.drop_append_eq_append_drop,
      show unreleasedMarker.length - R.length = 0 by omega,
      List.drop_zero]
  have hreg : regionEnd
      (s.take i ++ (R ++ subUnreleased R (s.drop (regionEnd s i)))) i
      = if subUnreleased R (s.drop (regionEnd s i)) = []
        then (s.take i ++ (R ++ subUnreleased R (s.drop (regionEnd s i)))).length
        else i + R.length := by
    rw [regionEnd, hdropA, findSub_boundary_after hpre hbnd hlast hTcases]
    by_cases hT : subUnreleased R (s.drop (regionEnd s i)) = []
    · rw [if_pos hT, if_pos hT]
      simp only [Option.getD_none]
      rw [List.length_append, List.length_append, htl]
      omega
    · rw [if_neg hT, if_neg hT]
      simp only [Option.getD_some]
      rw [List.length_drop]
      omega
  by_cases hT : subUnreleased R (s.drop (regionEnd s i)) = []
  · rw [hreg, if_pos hT, List.drop_eq_nil_of_le (Nat.le_refl _),
      subUnreleased_nil, htakeA, hT, subUnreleased_nil]
  · rw [hreg, if_neg hT, htakeA]
    have hdropR : (s.take i ++
        (R ++ subUnreleased R (s.drop (regionEnd s i)))).drop (i + R.length)
        = subUnreleased R (s.drop (regionEnd s i)) := by
      rw [List.drop_append_eq_append_drop, htl,
        List.drop_eq_nil_of_le (by rw [htl]; omega), List.nil_append,
        show i + R.length - i = R.length by omega,
        List.drop_append_eq_append_drop, List.drop_eq_nil_of_le (Nat.le_refl _),
        Nat.sub_self, List.drop_zero, List.nil_append]
    rw [hdropR]

/-- Substituting the same well-shaped region twice is the same as
substituting it once. -/
theorem sub_idem {R : Str} (hpre : unreleasedMarker <+: R)
    (hbnd : findSub nextSectionPat (R.drop unreleasedMarker.length) = none)
    (hlast : R.getLast? = some '\n') (s : Str) :
    subUnreleased R (subUnreleased R s) = subUnreleased R s := by
  have main : ∀ (n : Nat) (s : Str), s.length ≤ n →
      subUnreleased R (subUnreleased R s) = subUnreleased R s := by
    intro n
    induction n with
    | zero =>
      intro s hn
      have hs : s = [] := List.length_eq_zero.mp (Nat.le_zero.mp hn)
      subst hs
      rw [subUnreleased_nil, subUnreleased_nil]
    | succ n' ih =>
      intro s hn
      cases hf : findSub unreleasedMarker s with
      | none => rw [subUnreleased_eq_none hf, subUnreleased_eq_none hf]
      | some i =>
        rw [sub_sub_step hpre hbnd hlast hf]
        have hne : s ≠ [] := by
          intro hc
          rw [hc, findSub_nil_of_ne markerNeNil] at hf
          exact absurd hf (by simp)
        have h1 : 1 ≤ regionEnd s i := by
          rw [regionEnd]
          have h15 : unreleasedMarker.length = 15 := by decide
          omega
        have hpos : 1 ≤ s.length := by
          cases s with
          | nil => exact absurd rfl hne
          | cons a r => simp
        have hlen : (s.drop (regionEnd s i)).length ≤ n' := by
          rw [List.length_drop]
          omega
        rw [ih _ hlen, subUnreleased_eq_some hf]
  exact main s.length s (Nat.le_refl _)

/-- `parse_changelog` through the marker-and-no-boundary path. -/
theorem parse_some_none {content : Str} {i : Nat}
    (hf : findSub unreleasedMarker content = some i)
    (hn : findSub nextSectionPat
      (content.drop (i + unreleasedMarker.length)) = none) :
    parse_changelog (some content)
      = (content.take i,
         extractIds (content.drop (i + unreleasedMarker.length)), []) := by
  simp only [parse_changelog]
  rw [hf]
  show (match findSub nextSectionPat
        (content.drop (i + unreleasedMarker.length)) with
    | some k =>
      (content.take i,
       extractIds ((content.drop (i + unreleasedMarker.length)).take k),
       (content.drop (i + unreleasedMarker.length)).drop k)
    | none =>
      (content.take i,
       extractIds (content.drop (i + unreleasedMarker.length)), ([] : Str)))
    = _
  rw [hn]

/-- `parse_changelog` through the marker-and-boundary path. -/
theorem parse_some_some {content : Str} {i k : Nat}
    (hf : findSub unreleasedMarker content = some i)
    (hk : findSub nextSectionPat
      (content.drop (i + unreleasedMarker.length)) = some k) :
    parse_changelog (some content)
      = (content.take i,
         extractIds ((content.drop (i + unreleasedMarker.length)).take k),
         (content.drop (i + unreleasedMarker.length)).drop k) := by
  simp only [parse_changelog]
  rw [hf]
  show (match findSub nextSectionPat
        (content.drop (i + unreleasedMarker.length)) with
    | some k =>
      (content.take i,
       extractIds ((content.drop (i + unreleasedMarker.length)).take k),
       (content.drop (i + unreleasedMarker.length)).drop k)
    | none =>
      (content.take i,
       extractIds (content.drop (i + unreleasedMarker.length)), ([] : Str)))
    = _
  rw [hk]

theorem drop_marker_append {R T : Str} (hRlen : 15 ≤ R.length) {s : Str}
    {i : Nat} (htl : (s.take i).length = i) :
    (s.take i ++ (R ++ T)).drop (i + unreleasedMarker.length)
      = R.drop unreleasedMarker.length ++ T := by
  have h15 : unreleasedMarker.length = 15 := by decide
  rw [List.drop_append_eq_append_drop, htl,
    List.drop_eq_nil_of_le (by rw [htl]; omega), List.nil_append,
    show i + unreleasedMarker.length - i = unreleasedMarker.length by omega,
    List.drop_append_eq_append_drop,
    show unreleasedMarker.length - R.length = 0 by omega, List.drop_zero]

/-- The id set parse recovers from a substituted document is exactly the id
set of the substituted region's body. -/
theorem parse_sub_ids {R : Str} (hpre : unreleasedMarker <+: R)
    (hbnd : findSub nextSectionPat (R.drop unreleasedMarker.length) = none)
    (hlast : R.getLast? = some '\n') {s : Str} {i : Nat}
    (hf : findSub unreleasedMarker s = some i) :
    (parse_changelog (some (subUnreleased R s))).2.1
      = extractIds (R.drop unreleasedMarker.length) := by
  have hRlen : 15 ≤ R.length := by
    have h15 : unreleasedMarker.length = 15 := by decide
    have := hpre.length_le
    omega
  have htl := take_idx_of_findSub hf markerNeNil
  have hTcases := regionTail_cases hpre hf
  rw [subUnreleased_eq_some hf, List.append_assoc]
  have hfind : findSub unreleasedMarker
      (s.take i ++ (R ++ subUnreleased R (s.drop (regionEnd s i)))) = some i :=
    findSub_replace hf markerNeNil (hpre.trans (List.prefix_append R _))
  have hdropA := drop_marker_append hRlen htl
    (R := R) (T := subUnreleased R (s.drop (regionEnd s i))) (i := i) (s := s)
  by_cases hT : subUnreleased R (s.drop (regionEnd s i)) = []
  · have hb2 : findSub nextSectionPat
        ((s.take i ++ (R ++ subUnreleased R (s.drop (regionEnd s i)))).drop
          (i + unreleasedMarker.length)) = none := by
      rw [hdropA, hT, List.append_nil]
      exact hbnd
    rw [parse_some_none hfind hb2]
    simp only
    rw [hdropA, hT, List.append_nil]
  · have hb2 : findSub nextSectionPat
        ((s.take i ++ (R ++ subUnreleased R (s.drop (regionEnd s i)))).drop
          (i + unreleasedMarker.length))
        = some (R.drop unreleasedMarker.length).length := by
      rw [hdropA, findSub_boundary_after hpre hbnd hlast hTcases, if_neg hT]
    rw [parse_some_some hfind hb2]
    simp only
    rw [hdropA, List.take_append_eq_append_take,
      List.take_of_length_le (Nat.le_refl _), Nat.sub_self, List.take_zero,
      List.append_nil]

/-- Every rebuilt region starts with the managed marker line. -/
theorem marker_prefix_build (prs : List PullReq) :
    unreleasedMarker <+: build_changelog_content prs := by
  have hhead : unreleasedHeaderLine = unreleasedMarker ++ ['\n'] := by decide
  simp only [build_changelog_content, renderUnreleased]
  rw [renderFold_eq, hhead, List.append_assoc]
  exact List.prefix_append _ _

/--
Claim C1 as amended.  Running bulk-mode synchronization twice with the same
record set yields an identical document, provided that (a) the document
contains the managed marker, (b) no fetched record id is already discoverable
through the `(#N)` dedup pattern, either in the document's unreleased region
or in the freshly rebuilt region, and (c) the rebuilt region contains no
internal `\n## [` boundary and ends with a newline (true whenever no rendered
entry embeds a newline, in particular for every record the git fallback
synthesizes).  Without (b) the claim is false — see the counterexample: the
dedup pattern `\(#(\d+)\)` does not match the rendered `([#N](url))` link
form, so a second run re-adds every record the first run filtered out.
-/
theorem claim_C1_amended (doc : Str) (prs : List PullReq)
    (h0 : containsSub unreleasedMarker doc = true)
    (h1 : ∀ pr ∈ prs, pr.number ∉ (parse_changelog (some doc)).2.1)
    (h2 : ∀ pr ∈ prs, pr.number ∉ extractIds
      ((build_changelog_content prs).drop unreleasedMarker.length))
    (h3 : findSub nextSectionPat
      ((build_changelog_content prs).drop unreleasedMarker.length) = none)
    (h4 : (build_changelog_content prs).getLast? = some '\n') :
    build_full_changelog_from_history prs
        (build_full_changelog_from_history prs (some doc))
      = build_full_changelog_from_history prs (some doc) := by
  by_cases hprs : prs.isEmpty
  · simp [build_full_changelog_from_history, hprs]
  · have hpe : prs.isEmpty = false := by
      cases hx : prs.isEmpty
      · rfl
      · exact absurd hx hprs
    have hfilter : prs.filter
        (fun pr => !((parse_changelog (some doc)).2.1.contains pr.number))
        = prs :=
      List.filter_eq_self.mpr (fun pr hpr => by simp [h1 pr hpr])
    obtain ⟨i, hf⟩ : ∃ i, findSub unreleasedMarker doc = some i := by
      rw [containsSub] at h0
      cases hx : findSub unreleasedMarker doc with
      | none => rw [hx] at h0; simp at h0
      | some j => exact ⟨j, rfl⟩
    have hpre := marker_prefix_build prs
    have hrun1 : build_full_changelog_from_history prs (some doc)
        = some (subUnreleased (build_changelog_content prs) doc) := by
      simp only [build_full_changelog_from_history, hpe, Bool.false_eq_true,
        if_false, hfilter, h0, if_true]
    rw [hrun1]
    have hfind2 : findSub unreleasedMarker
        (subUnreleased (build_changelog_content prs) doc) = some i := by
      rw [subUnreleased_eq_some hf, List.append_assoc]
      exact findSub_replace hf markerNeNil
        (hpre.trans (List.prefix_append (build_changelog_content prs) _))
    have hcont2 : containsSub unreleasedMarker
        (subUnreleased (build_changelog_content prs) doc) = true := by
      rw [containsSub, hfind2]
      rfl
    have hids2 : (parse_changelog
        (some (subUnreleased (build_changelog_content prs) doc))).2.1
        = extractIds ((build_changelog_content prs).drop
            unreleasedMarker.length) :=
      parse_sub_ids hpre h3 h4 hf
    have hfilter2 : prs.filter
        (fun pr => !((parse_changelog
          (some (subUnreleased (build_changelog_content prs) doc))).2.1.contains
            pr.number)) = prs :=
      List.filter_eq_self.mpr (fun pr hpr => by
        rw [hids2]
        simp [h2 pr hpr])
    have hrun2 : build_full_changelog_from_history prs
        (some (subUnreleased (build_changelog_content prs) doc))
        = some (subUnreleased (build_changelog_content prs)
            (subUnreleased (build_changelog_content prs) doc)) := by
      simp only [build_full_changelog_from_history, hpe, Bool.false_eq_true,
        if_false, hfilter2, hcont2, if_true]
    rw [hrun2, sub_idem hpre h3 h4]

/-- Witness for the amended C1: a titled document with one released section
and a single fresh record. -/
theorem claim_C1_amended_witness :
    build_full_changelog_from_history
        [⟨7, "add cache".toList, [], "u".toList, []⟩]
        (build_full_changelog_from_history
          [⟨7, "add cache".toList, [], "u".toList, []⟩]
          (some "# X\n\n## [Unreleased]\n\n## [0.1.0]\nold\n".toList))
      = build_full_changelog_from_history
          [⟨7, "add cache".toList, [], "u".toList, []⟩]
          (some "# X\n\n## [Unreleased]\n\n## [0.1.0]\nold\n".toList) :=
  claim_C1_amended "# X\n\n## [Unreleased]\n\n## [0.1.0]\nold\n".toList
    [⟨7, "add cache".toList, [], "u".toList, []⟩]
    (by decide) (by decide) (by decide) (by decide) (by decide)

end Changelog
